import Mathlib

/-!
# Verification of the route-analysis engine of `mcp-agent-transport`

Shallow embedding of the algorithmic core of `src/agent/tools.py`:

* `parse_iso_duration_to_minutes` (tools.py, lines 487-507),
* `analyze_best_routes` (tools.py, lines 510-632),
* `optimize_multi_city_route` (tools.py, lines 635-839).

Conventions of the embedding:

* Python `float` durations are modelled by `WithTop ℕ` (minutes): `⊤` plays
  the role of `float('inf')`, the sentinel for unparseable durations.
* Python `float` prices are modelled by `ℚ`.  The only price arithmetic the
  code performs is subtraction, comparison and `"%.2f"` formatting; the
  formatting model (`format2`) is exact for non-negative amounts that are
  whole multiples of `0.01`, which covers all inputs exercised here.
* A JSON option dict is modelled by `Offer`; a field that is JSON `null` is
  identified with an absent field (the code treats `price`/`duration`
  identically in both cases; `currency : null` would differ but is never
  exercised).
* Python object identity of list elements is modelled by the position of the
  element: `json.loads` creates one fresh dict per list element, so `id`-based
  membership coincides with index-based membership.  Lists are therefore
  enumerated with `enumF` before selection.
* A Python exception that is caught by the enclosing `except Exception`
  handler is modelled by `Except.error` carrying the exception message.
-/

set_option autoImplicit false
set_option allowUnsafeReducibility true
attribute [semireducible] Rat.add Rat.sub Rat.mul

/-! ## Duration parser (tools.py, lines 487-507)

The Python code runs `re.match(r'PT(?:(\d+)H)?(?:(\d+)M)?', iso_duration)`.
`re.match` anchors at the start only; both groups are optional, so the match
succeeds exactly when the string starts with `"PT"`.  Because `\d+H` is
followed by nothing that can consume a digit, the group `(?:(\d+)H)?`
matches exactly when the maximal digit run after the current position is
non-empty and is immediately followed by `'H'` (backtracking to a shorter
digit run can never succeed, since the next character would be a digit);
likewise for `(?:(\d+)M)?`.  `takeDigits` takes that maximal digit run. -/

def takeDigits : List Char → List Char × List Char
  | [] => ([], [])
  | c :: cs =>
    if c.isDigit then
      let p := takeDigits cs
      (c :: p.1, p.2)
    else ([], c :: cs)

/-- Decimal value of a digit run, as computed by Python `int`. -/
def digitsVal (ds : List Char) : ℕ :=
  ds.foldl (fun acc c => 10 * acc + (c.toNat - 48)) 0

/-- The part of the regex after the literal `"PT"`:
optional `(\d+)H`, then optional `(\d+)M`; returns `hours * 60 + minutes`. -/
def parseCore (rest : List Char) : ℕ :=
  let ph := takeDigits rest
  let afterH := if ph.1 ≠ [] ∧ ph.2.head? = some 'H' then (digitsVal ph.1, ph.2.tail) else (0, rest)
  let pm := takeDigits afterH.2
  let minutes := if pm.1 ≠ [] ∧ pm.2.head? = some 'M' then digitsVal pm.1 else 0
  afterH.1 * 60 + minutes

/-- `parse_iso_duration_to_minutes` (tools.py, lines 487-507).  Returns `⊤`
(the `float('inf')` sentinel) exactly when `re.match` fails, i.e. when the
string does not start with `"PT"`. -/
def parse_iso_duration_to_minutes (s : String) : WithTop ℕ :=
  match s.toList with
  | c1 :: c2 :: rest => if c1 = 'P' ∧ c2 = 'T' then (parseCore rest : ℕ) else ⊤
  | _ => ⊤

/-! ## The offer data model -/

/-- The fields of an option dict that `analyze_best_routes` and
`optimize_multi_city_route` actually inspect.  All other fields (`type`,
`provider`, `origin`, `destination`, ...) are opaque pass-through payload. -/
structure Offer where
  price : Option ℚ
  currency : Option String
  duration : Option String
deriving DecidableEq

/-- Python truthiness of an optional string field (`opt.get('duration')`):
false for an absent field and for the empty string. -/
def truthyStr : Option String → Bool
  | none => false
  | some s => !s.toList.isEmpty

/-- Parsed duration of an offer, as the code computes it wherever it has
already checked `opt.get('duration')` for truthiness. -/
def parseDur (o : Offer) : WithTop ℕ :=
  parse_iso_duration_to_minutes (o.duration.getD "")

/-! ## Positional enumeration and Python `min`

`min(iterable, key=k)` returns the first element attaining the minimal key.
`enumF i l` pairs every element of `l` with its position (starting at `i`),
modelling Python object identity of distinct list elements. -/

def enumF {α : Type _} (i : ℕ) : List α → List (ℕ × α)
  | [] => []
  | a :: as => (i, a) :: enumF (i + 1) as

/-- The fold underlying Python `min` with a key function: keep the current
best and replace it only on a strictly smaller key. -/
def foldMin {α β : Type _} [LinearOrder β] (f : α → β) (a : α) (l : List α) : α :=
  l.foldl (fun b x => if f x < f b then x else b) a

/-- Python `min(l, key=f)` for a possibly empty `l`: the first element of `l`
attaining the minimal key, or `none` when `l` is empty. -/
def firstMinBy {α β : Type _} [LinearOrder β] (f : α → β) : List α → Option α
  | [] => none
  | a :: as => some (foldMin f a as)

/-! ## String formatting helpers -/

/-- Two-digit rendering of a number below 100 (the fractional cents). -/
def pad2 (n : ℕ) : String :=
  if n < 10 then "0" ++ toString n else toString n

/-- Model of Python `f"{q:.2f}"`, exact for non-negative amounts that are
whole multiples of `0.01` (the only amounts the claims exercise). -/
def format2 (q : ℚ) : String :=
  let c : ℤ := Rat.floor (q * 100)
  toString (c / 100) ++ "." ++ pad2 (c % 100).toNat

/-- Model of the `f"{h}h {m}m" if hours > 0 else f"{m}m"` rendering of a
minute delta (tools.py, lines 594-596 and 796-798). -/
def timeStr (td : ℕ) : String :=
  if td / 60 > 0 then toString (td / 60) ++ "h " ++ toString (td % 60) ++ "m"
  else toString (td % 60) ++ "m"

/-! ## `analyze_best_routes` (tools.py, lines 510-632) -/

/-- One entry of the `discarded` list: the offer (with its input position,
modelling Python object identity) and its reasons. -/
structure DiscardedEntry where
  idx : ℕ
  offer : Offer
  reasons : List String
deriving DecidableEq

/-- The successful analysis payload (tools.py, lines 607-619). -/
structure AnalysisResult where
  total_options : ℕ
  options_with_price : ℕ
  options_with_duration : ℕ
  cheapest : ℕ × Offer
  fastest : Option (ℕ × Offer)
  same_option : Bool
  discarded : List DiscardedEntry
deriving DecidableEq

/-- `analyze_best_routes` returns either a structured error record
(`{"error": ..., "message": ...}`) or an analysis result. -/
inductive AnalyzeOutput where
  | error (name msg : String) : AnalyzeOutput
  | ok (r : AnalysisResult) : AnalyzeOutput
deriving DecidableEq

/-- The `options_with_price` view (tools.py, line 545): offers whose `price`
field is present (`is not None`), with their positions. -/
def pricedView (options : List Offer) : List (ℕ × Offer) :=
  (enumF 0 options).filter fun io => io.2.price.isSome

/-- The `options_with_duration` view (tools.py, lines 557-560): offers whose
`duration` field is truthy and parses to a finite number of minutes. -/
def timedView (options : List Offer) : List (ℕ × Offer) :=
  (enumF 0 options).filter fun io => truthyStr io.2.duration && decide (parseDur io.2 ≠ ⊤)

/-- The reasons loop body for one non-recommended option (tools.py, lines
580-600).  The duration branch mirrors the Python arithmetic: when
`opt_minutes` is the infinity sentinel and exceeds `fastest_minutes`,
`time_diff` is `inf`, `inf // 60` is `nan`, and `int(nan)` raises
`ValueError: cannot convert float NaN to integer`, which the enclosing
`except Exception` turns into an `"Analysis failed"` error record. -/
def buildReasons (cheapest : ℕ × Offer) (fastest : Option (ℕ × Offer)) (opt : Offer) :
    Except String (List String) :=
  let priceReasons : List String :=
    match opt.price with
    | some p =>
      if p - (cheapest.2.price.getD 0) > 0 then
        [format2 (p - cheapest.2.price.getD 0) ++ " " ++ opt.currency.getD "EUR" ++
          " more expensive than cheapest"]
      else []
    | none => []
  match fastest with
  | some f =>
    if truthyStr opt.duration ∧ truthyStr f.2.duration then
      let om := parseDur opt
      let fm := parseDur f.2
      if fm < om then
        if om = ⊤ then Except.error "cannot convert float NaN to integer"
        else
          Except.ok (priceReasons ++
            [timeStr (om.untop' 0 - fm.untop' 0) ++ " slower than fastest"])
      else Except.ok priceReasons
    else Except.ok priceReasons
  | none => Except.ok priceReasons

/-- Whether a position is one of the recommended ones (tools.py, lines
568-574): the cheapest's position, and the fastest's position when a fastest
exists. -/
def isSelected (cheapest : ℕ × Offer) (fastest : Option (ℕ × Offer)) (i : ℕ) : Bool :=
  i == cheapest.1 || (match fastest with | some f => i == f.1 | none => false)

/-- The discard loop (tools.py, lines 576-605): walk the enumerated options;
skip recommended positions; otherwise collect reasons, substituting the
generic fallback when no axis produced a reason.  The first raised exception
aborts the whole loop, as in Python. -/
def buildDiscarded (cheapest : ℕ × Offer) (fastest : Option (ℕ × Offer)) :
    List (ℕ × Offer) → Except String (List DiscardedEntry)
  | [] => Except.ok []
  | io :: rest =>
    if isSelected cheapest fastest io.1 then buildDiscarded cheapest fastest rest
    else
      match buildReasons cheapest fastest io.2 with
      | Except.error e => Except.error e
      | Except.ok rs =>
        match buildDiscarded cheapest fastest rest with
        | Except.error e => Except.error e
        | Except.ok ds =>
          Except.ok (⟨io.1, io.2,
            if rs.isEmpty then ["Not the cheapest or fastest option"] else rs⟩ :: ds)

/-- `analyze_best_routes` (tools.py, lines 510-632).  The input models the
parsed JSON: `none` when the `"options"` key is missing, otherwise the list
of option dicts (a falsy — empty — list is handled like a missing key by
the `"options" not in data or not data["options"]` test). -/
def analyze_best_routes (input : Option (List Offer)) : AnalyzeOutput :=
  match input with
  | none => AnalyzeOutput.error "No options provided to analyze"
      "Please provide transportation options to analyze"
  | some options =>
    if options.isEmpty then
      AnalyzeOutput.error "No options provided to analyze"
        "Please provide transportation options to analyze"
    else
      match firstMinBy (fun io => io.2.price.getD 0) (pricedView options) with
      | none => AnalyzeOutput.error "No options with valid prices"
          "Cannot determine cheapest option without pricing information"
      | some cheapest =>
        let fastest := firstMinBy (fun io => parseDur io.2) (timedView options)
        match buildDiscarded cheapest fastest (enumF 0 options) with
        | Except.error msg => AnalyzeOutput.error "Analysis failed" msg
        | Except.ok ds =>
          AnalyzeOutput.ok
            { total_options := options.length
              options_with_price := (pricedView options).length
              options_with_duration := (timedView options).length
              cheapest := cheapest
              fastest := fastest
              same_option := match fastest with
                | some f => cheapest.1 == f.1
                | none => false
              discarded := ds }

/-! ## `optimize_multi_city_route` (tools.py, lines 635-839)

The collaborator `search_all_transport` is modelled as an injected function
`ls : origin → destination → day → Option (List Offer)`; `none` models a
reply without an `"options"` key.  Dates are modelled by the day index
(`departure_date` is day `d0`; the loop advances one day per completed leg,
tools.py lines 754-757).  The display-only field `total_duration_hours`
(`round(total/60, 1)`, never compared by the code) is omitted. -/

/-- Python truthiness of the `price` field (tools.py, line 736:
`if opt.get('price')`): false for an absent price and for a price of `0`. -/
def priceTruthy (o : Offer) : Bool :=
  match o.price with
  | some p => decide (p ≠ 0)
  | none => false

/-- Per-leg selection (tools.py, lines 736-741): the first minimum-price
offer among the truthy-priced offers of the leg, or `none` when there is no
truthy-priced offer. -/
def legBest (opts : List Offer) : Option Offer :=
  firstMinBy (fun o => o.price.getD 0) (opts.filter priceTruthy)

/-- One leg of a complete route (tools.py, lines 743-748): `from`, `to`,
`date` and the chosen option. -/
structure RouteLeg where
  origin : String
  dest : String
  date : ℕ
  option : Offer
deriving DecidableEq

/-- A valid complete route (tools.py, lines 760-766). -/
structure CompleteRoute where
  route : List String
  total_price : ℚ
  total_duration_minutes : WithTop ℕ
  legs : List RouteLeg
deriving DecidableEq

/-- The inner leg loop (tools.py, lines 714-757) for one permutation:
returns the legs plus the accumulated `total_price` and
`total_duration_minutes`, or `none` when the permutation is invalidated
(leg reply without options, empty options, or no truthy-priced option).
Each leg contributes `best_leg.get('price', 0)` to the price total and
`parse_iso_duration_to_minutes(best_leg.get('duration', 'PT0M'))` to the
duration total (tools.py, lines 750-752). -/
def buildLegs (ls : String → String → ℕ → Option (List Offer)) :
    ℕ → List String → Option (List RouteLeg × ℚ × WithTop ℕ)
  | _, [] => some ([], 0, 0)
  | _, [_] => some ([], 0, 0)
  | d, a :: b :: rest =>
    match ls a b d with
    | none => none
    | some opts =>
      if opts.isEmpty then none
      else
        match legBest opts with
        | none => none
        | some best =>
          match buildLegs ls (d + 1) (b :: rest) with
          | none => none
          | some acc =>
            some (⟨a, b, d, best⟩ :: acc.1,
              best.price.getD 0 + acc.2.1,
              parse_iso_duration_to_minutes (best.duration.getD "PT0M") + acc.2.2)

/-- One permutation's candidate route (tools.py, lines 706-766). -/
def buildRoute (ls : String → String → ℕ → Option (List Offer)) (d0 : ℕ)
    (perm : List String) : Option CompleteRoute :=
  (buildLegs ls d0 perm).map fun acc => ⟨perm, acc.2.1, acc.2.2, acc.1⟩

/-- All ways to pick one element out of a list, in index order, each with
the remaining elements (in their original order). -/
def removals {α : Type _} : List α → List (α × List α)
  | [] => []
  | a :: as => (a, as) :: (removals as).map fun p => (p.1, a :: p.2)

/-- Fuel-indexed core of `itertools.permutations`: pick each element in
index order as the head, recurse on the remainder.  The fuel equals the
list length at every call. -/
def permAux {α : Type _} : ℕ → List α → List (List α)
  | 0, _ => [[]]
  | n + 1, l => ((removals l).map fun p => (permAux n p.2).map (p.1 :: ·)).flatten

/-- `itertools.permutations(cities)` (tools.py, line 700): all `n!` index
permutations, in itertools enumeration order (first element chosen in index
order, then recursively). -/
def allPermutations (cities : List String) : List (List String) :=
  permAux cities.length cities

/-- The `complete_routes` candidate list (tools.py, lines 703-766): valid
routes of all permutations, in enumeration order. -/
def completeRoutes (ls : String → String → ℕ → Option (List Offer)) (d0 : ℕ)
    (cities : List String) : List CompleteRoute :=
  (allPermutations cities).filterMap (buildRoute ls d0)

/-- One entry of the route-level `discarded` list (tools.py, lines 804-809;
the display-only `total_duration_hours` field is omitted). -/
structure DiscardedRoute where
  route : List String
  total_price : ℚ
  reasons : List String
deriving DecidableEq

/-- Route-level reasons (tools.py, lines 786-802), mirroring the Python
float arithmetic as in `buildReasons`: an infinite `time_diff` makes
`int(nan)` raise, turning the whole call into a
`"Route optimization failed"` error record. -/
def routeReasons (cheapest fastest route : CompleteRoute) : Except String (List String) :=
  let priceReasons : List String :=
    if route.total_price - cheapest.total_price > 0 then
      [format2 (route.total_price - cheapest.total_price) ++ " EUR more expensive than cheapest route"]
    else []
  let rm := route.total_duration_minutes
  let fm := fastest.total_duration_minutes
  if fm < rm then
    if rm = ⊤ then Except.error "cannot convert float NaN to integer"
    else
      Except.ok (priceReasons ++ [timeStr (rm.untop' 0 - fm.untop' 0) ++ " slower than fastest route"])
  else
    Except.ok (if priceReasons.isEmpty then ["Not the cheapest or fastest route order"]
      else priceReasons)

/-- The route-level discard loop (tools.py, lines 781-809), positional like
`buildDiscarded`. -/
def buildRouteDiscarded (cheapest fastest : ℕ × CompleteRoute) :
    List (ℕ × CompleteRoute) → Except String (List DiscardedRoute)
  | [] => Except.ok []
  | ir :: rest =>
    if ir.1 == cheapest.1 || ir.1 == fastest.1 then buildRouteDiscarded cheapest fastest rest
    else
      match routeReasons cheapest.2 fastest.2 ir.2 with
      | Except.error e => Except.error e
      | Except.ok rs =>
        match buildRouteDiscarded cheapest fastest rest with
        | Except.error e => Except.error e
        | Except.ok ds => Except.ok (⟨ir.2.route, ir.2.total_price, rs⟩ :: ds)

/-- The outcome of `optimize_multi_city_route`: a structured error record or
the recommended cheapest/fastest routes (with their candidate positions),
the `same_route` flag and the discarded routes. -/
inductive OptimizeOutput where
  | error (name : String) : OptimizeOutput
  | ok (cheapest fastest : ℕ × CompleteRoute) (same_route : Bool)
      (discarded : List DiscardedRoute) : OptimizeOutput
deriving DecidableEq

/-- `optimize_multi_city_route` (tools.py, lines 635-839).  The input models
the parsed `cities_json`: `none` when it is not a list.  `same_route`
compares the city orders by value (tools.py, line 820). -/
def optimize_multi_city_route (ls : String → String → ℕ → Option (List Offer))
    (cities? : Option (List String)) (d0 : ℕ) : OptimizeOutput :=
  match cities? with
  | none => OptimizeOutput.error "Need at least 2 cities to optimize route"
  | some cities =>
    if cities.length < 2 then OptimizeOutput.error "Need at least 2 cities to optimize route"
    else
      match enumF 0 (completeRoutes ls d0 cities) with
      | [] => OptimizeOutput.error "Could not find valid routes for any permutation"
      | c :: cs =>
        let cheapest := foldMin (fun p => p.2.total_price) c cs
        let fastest := foldMin (fun p => p.2.total_duration_minutes) c cs
        match buildRouteDiscarded cheapest fastest (c :: cs) with
        | Except.error _ => OptimizeOutput.error "Route optimization failed"
        | Except.ok ds =>
          OptimizeOutput.ok cheapest fastest (cheapest.2.route == fastest.2.route) ds

/-! ## Spec-side definitions and concrete fixtures

`matchesIsoGrammar` follows the words of claim C2 — the expected grammar is
the full string `"PT"`, then an optional non-empty digit run followed by
`'H'`, then an optional non-empty digit run followed by `'M'` — so that the
behaviour of the source parser on strings outside the grammar can be
compared against the claim.  Everything else in this section is concrete
input data for the claims. -/

/-- Modelled from the spec (claim C2): full-string membership in the
expected duration grammar. -/
def matchesIsoGrammar (s : String) : Bool :=
  match s.toList with
  | c1 :: c2 :: rest =>
    if c1 = 'P' ∧ c2 = 'T' then
      let ph := takeDigits rest
      let r1 := if ph.1 ≠ [] ∧ ph.2.head? = some 'H' then ph.2.tail else rest
      let pm := takeDigits r1
      let r2 := if pm.1 ≠ [] ∧ pm.2.head? = some 'M' then pm.2.tail else r1
      r2.isEmpty
    else false
  | _ => false

/-- The three offers of the spec scenario in claim C4 (mode/provider fields
are pass-through payload and not part of the embedding). -/
def scenarioOffers : List Offer :=
  [⟨some 45, none, some "PT12H0M"⟩, ⟨some 120, none, some "PT2H30M"⟩, ⟨some 95, none, some "PT8H0M"⟩]

/-- The analysis result the code produces on `scenarioOffers`. -/
def scenarioResult : AnalysisResult :=
  { total_options := 3
    options_with_price := 3
    options_with_duration := 3
    cheapest := (0, ⟨some 45, none, some "PT12H0M"⟩)
    fastest := some (1, ⟨some 120, none, some "PT2H30M"⟩)
    same_option := false
    discarded := [⟨2, ⟨some 95, none, some "PT8H0M"⟩,
      ["50.00 EUR more expensive than cheapest", "5h 30m slower than fastest"]⟩] }

/-- Leg search fixture for claim C9: the only offer of the only servable leg
is priced exactly `0`. -/
def ls9 : String → String → ℕ → Option (List Offer) :=
  fun o d _ => if o = "A" ∧ d = "B" then some [⟨some 0, none, none⟩] else some []

/-- Leg search fixture for claims C9/C10 witnesses. -/
def ls10 : String → String → ℕ → Option (List Offer) :=
  fun o d _ =>
    if o = "A" ∧ d = "B" then some [⟨some 5, none, some "bogus"⟩, ⟨some 3, none, some "PT1H"⟩]
    else if o = "B" ∧ d = "A" then some [⟨some 7, none, none⟩]
    else some []

/-- The candidate route `buildRoute ls10 0 ["A", "B"]` produces. -/
def cr10 : CompleteRoute :=
  { route := ["A", "B"]
    total_price := 3
    total_duration_minutes := (60 : ℕ)
    legs := [⟨"A", "B", 0, ⟨some 3, none, some "PT1H"⟩⟩] }

/-- Leg search fixture for the C10 witness: the chosen offer of leg
`A → B` has a present but unparseable duration. -/
def lsC10 : String → String → ℕ → Option (List Offer) :=
  fun o d _ =>
    if o = "A" ∧ d = "B" then some [⟨some 5, none, some "XptX"⟩]
    else if o = "B" ∧ d = "A" then some [⟨some 7, none, some "oops"⟩]
    else some []

/-- The candidate route `buildRoute lsC10 0 ["A", "B"]` produces: its total
duration is the infinity sentinel, yet it is a valid candidate. -/
def crC10 : CompleteRoute :=
  { route := ["A", "B"]
    total_price := 5
    total_duration_minutes := ⊤
    legs := [⟨"A", "B", 0, ⟨some 5, none, some "XptX"⟩⟩] }

/-- Input fixture for the C5 and C3 witnesses: a duplicate of the minimal
price occurs later in the list. -/
def offers5 : List Offer := [⟨some 7, none, none⟩, ⟨some 4, none, none⟩, ⟨some 4, none, none⟩]

/-- The analysis result the code produces on `offers5`. -/
def result5 : AnalysisResult :=
  { total_options := 3
    options_with_price := 3
    options_with_duration := 0
    cheapest := (1, ⟨some 4, none, none⟩)
    fastest := none
    same_option := false
    discarded := [⟨0, ⟨some 7, none, none⟩, ["3.00 EUR more expensive than cheapest"]⟩,
      ⟨2, ⟨some 4, none, none⟩, ["Not the cheapest or fastest option"]⟩] }

/-- Input fixture for the C6 witness: the cheapest offer has an unparseable
duration, the other offer is the only one eligible for `fastest`. -/
def offers6 : List Offer := [⟨some 5, none, some "garbage"⟩, ⟨some 9, none, some "PT1H"⟩]

/-- The analysis result the code produces on `offers6`. -/
def result6 : AnalysisResult :=
  { total_options := 2
    options_with_price := 2
    options_with_duration := 1
    cheapest := (0, ⟨some 5, none, some "garbage"⟩)
    fastest := some (1, ⟨some 9, none, some "PT1H"⟩)
    same_option := false
    discarded := [] }

/-! ## Lemmas about the duration parser -/

theorem takeDigits_all (ds : List Char) (h : ∀ c ∈ ds, c.isDigit = true) :
    takeDigits ds = (ds, []) := by
  induction ds with
  | nil => rfl
  | cons c cs ih =>
    have hc : c.isDigit = true := h c (List.mem_cons_self c cs)
    have ht := ih fun x hx => h x (List.mem_cons_of_mem c hx)
    simp only [takeDigits, hc, if_true, ht]

theorem takeDigits_append_stop (ds : List Char) (c : Char) (rest : List Char)
    (hds : ∀ x ∈ ds, x.isDigit = true) (hc : c.isDigit = false) :
    takeDigits (ds ++ (c :: rest)) = (ds, c :: rest) := by
  induction ds with
  | nil => simp [takeDigits, hc]
  | cons d t ih =>
    have hd : d.isDigit = true := hds d (List.mem_cons_self d t)
    have ht := ih fun x hx => hds x (List.mem_cons_of_mem d hx)
    simp only [List.cons_append, takeDigits, hd, if_true, List.append_eq, ht]

theorem parseCore_hm (hs ms : List Char) (hh : hs ≠ []) (hhd : ∀ c ∈ hs, c.isDigit = true)
    (hm : ms ≠ []) (hmd : ∀ c ∈ ms, c.isDigit = true) :
    parseCore (hs ++ ('H' :: (ms ++ ['M']))) = digitsVal hs * 60 + digitsVal ms := by
  have h1 := takeDigits_append_stop hs 'H' (ms ++ ['M']) hhd (by decide)
  have h2 := takeDigits_append_stop ms 'M' [] hmd (by decide)
  simp [parseCore, h1, h2, hh, hm]

theorem parseCore_h (hs : List Char) (hh : hs ≠ []) (hhd : ∀ c ∈ hs, c.isDigit = true) :
    parseCore (hs ++ ['H']) = digitsVal hs * 60 := by
  have h1 := takeDigits_append_stop hs 'H' [] hhd (by decide)
  simp [parseCore, h1, hh, takeDigits]

theorem parseCore_m (ms : List Char) (hm : ms ≠ []) (hmd : ∀ c ∈ ms, c.isDigit = true) :
    parseCore (ms ++ ['M']) = digitsVal ms := by
  have h1 := takeDigits_append_stop ms 'M' [] hmd (by decide)
  simp [parseCore, h1, hm]

/-! ## Lemmas about Python `min` (`foldMin` / `firstMinBy`) -/

theorem foldMin_cons {α β : Type _} [LinearOrder β] (f : α → β) (a c : α) (t : List α) :
    foldMin f a (c :: t) = foldMin f (if f c < f a then c else a) t := rfl

theorem foldMin_spec {α β : Type _} [LinearOrder β] (f : α → β) :
    ∀ (l : List α) (a : α),
      (foldMin f a l = a ∧ ∀ b ∈ l, f a ≤ f b) ∨
      (∃ l₁ x l₂, l = l₁ ++ x :: l₂ ∧ foldMin f a l = x ∧ f x < f a ∧
        (∀ b ∈ l₁, f x < f b) ∧ (∀ b ∈ l₂, f x ≤ f b))
  | [], a => Or.inl ⟨rfl, by simp⟩
  | c :: t, a => by
    rw [foldMin_cons]
    by_cases hc : f c < f a
    · rw [if_pos hc]
      rcases foldMin_spec f t c with ⟨h1, h2⟩ | ⟨l₁, x, l₂, ht, hres, hlt, hall1, hall2⟩
      · exact Or.inr ⟨[], c, t, by simp, h1, hc, by simp, h2⟩
      · refine Or.inr ⟨c :: l₁, x, l₂, by rw [ht]; simp, hres, lt_trans hlt hc, ?_, hall2⟩
        intro b hb
        rcases List.mem_cons.mp hb with rfl | hb
        · exact hlt
        · exact hall1 b hb
    · rw [if_neg hc]
      rcases foldMin_spec f t a with ⟨h1, h2⟩ | ⟨l₁, x, l₂, ht, hres, hlt, hall1, hall2⟩
      · refine Or.inl ⟨h1, ?_⟩
        intro b hb
        rcases List.mem_cons.mp hb with rfl | hb
        · exact le_of_not_lt hc
        · exact h2 b hb
      · refine Or.inr ⟨c :: l₁, x, l₂, by rw [ht]; simp, hres, hlt, ?_, hall2⟩
        intro b hb
        rcases List.mem_cons.mp hb with rfl | hb
        · exact lt_of_lt_of_le hlt (le_of_not_lt hc)
        · exact hall1 b hb

theorem firstMinBy_split {α β : Type _} [LinearOrder β] (f : α → β) (l : List α) (a : α)
    (h : firstMinBy f l = some a) :
    ∃ l₁ l₂, l = l₁ ++ a :: l₂ ∧ (∀ b ∈ l₁, f a < f b) ∧ (∀ b ∈ l₂, f a ≤ f b) := by
  match l with
  | [] => simp [firstMinBy] at h
  | c :: t =>
    simp only [firstMinBy, Option.some.injEq] at h
    rcases foldMin_spec f t c with ⟨h1, h2⟩ | ⟨l₁, x, l₂, ht, hres, hlt, hall1, hall2⟩
    · refine ⟨[], t, ?_, by simp, ?_⟩
      · rw [← h, h1]
        simp
      · rw [← h, h1]
        exact h2
    · refine ⟨c :: l₁, l₂, ?_, ?_, ?_⟩
      · rw [← h, hres, ht]
        simp
      · intro b hb
        rw [← h, hres]
        rcases List.mem_cons.mp hb with rfl | hb
        · exact hlt
        · exact hall1 b hb
      · intro b hb
        rw [← h, hres]
        exact hall2 b hb

theorem firstMinBy_mem {α β : Type _} [LinearOrder β] {f : α → β} {l : List α} {a : α}
    (h : firstMinBy f l = some a) : a ∈ l := by
  rcases firstMinBy_split f l a h with ⟨l₁, l₂, hl, -, -⟩
  rw [hl]
  simp

theorem firstMinBy_le {α β : Type _} [LinearOrder β] {f : α → β} {l : List α} {a : α}
    (h : firstMinBy f l = some a) : ∀ b ∈ l, f a ≤ f b := by
  rcases firstMinBy_split f l a h with ⟨l₁, l₂, hl, h1, h2⟩
  intro b hb
  rw [hl] at hb
  rcases List.mem_append.mp hb with hb | hb
  · exact le_of_lt (h1 b hb)
  · rcases List.mem_cons.mp hb with rfl | hb
    · exact le_refl _
    · exact h2 b hb

theorem firstMinBy_eq_none_iff {α β : Type _} [LinearOrder β] (f : α → β) (l : List α) :
    firstMinBy f l = none ↔ l = [] := by
  cases l <;> simp [firstMinBy]

theorem firstMinBy_isSome {α β : Type _} [LinearOrder β] (f : α → β) (l : List α)
    (h : l ≠ []) : ∃ a, firstMinBy f l = some a := by
  cases hf : firstMinBy f l with
  | none => exact absurd ((firstMinBy_eq_none_iff f l).mp hf) h
  | some a => exact ⟨a, rfl⟩

/-! ## Lemmas about `enumF` -/

theorem enumF_length {α : Type _} (i : ℕ) (l : List α) : (enumF i l).length = l.length := by
  induction l generalizing i with
  | nil => rfl
  | cons a as ih => simp [enumF, ih]

theorem enumF_eq_nil_iff {α : Type _} (i : ℕ) (l : List α) : enumF i l = [] ↔ l = [] := by
  cases l <;> simp [enumF]

theorem mem_enumF {α : Type _} {i : ℕ} {l : List α} {p : ℕ × α} (h : p ∈ enumF i l) :
    i ≤ p.1 ∧ p.1 - i < l.length ∧ l.get? (p.1 - i) = some p.2 := by
  induction l generalizing i with
  | nil => simp [enumF] at h
  | cons a as ih =>
    rcases List.mem_cons.mp h with rfl | h
    · simp
    · rcases ih h with ⟨h1, h2, h3⟩
      have hi : i + 1 ≤ p.1 := h1
      have hsub : p.1 - i = (p.1 - (i + 1)) + 1 := by omega
      refine ⟨by omega, by simp [hsub]; omega, ?_⟩
      rw [hsub]
      simpa using h3

theorem enumF_mem {α : Type _} {l : List α} {j : ℕ} {a : α} (i : ℕ) (h : l.get? j = some a) :
    (i + j, a) ∈ enumF i l := by
  induction l generalizing i j with
  | nil => simp at h
  | cons x xs ih =>
    cases j with
    | zero =>
      simp at h
      simp [enumF, h]
    | succ k =>
      simp only [List.get?_cons_succ] at h
      have := ih (i := i + 1) h
      simp only [enumF, List.mem_cons]
      right
      have harith : i + (k + 1) = (i + 1) + k := by omega
      rw [harith]
      exact this

theorem enumF_fst_lt {α : Type _} {i : ℕ} {l : List α} {p : ℕ × α} (h : p ∈ enumF i l) :
    p.1 < i + l.length := by
  rcases mem_enumF h with ⟨h1, h2, -⟩
  omega

theorem enumF_pairwise {α : Type _} (i : ℕ) (l : List α) :
    (enumF i l).Pairwise fun p q => p.1 < q.1 := by
  induction l generalizing i with
  | nil => exact List.Pairwise.nil
  | cons a as ih =>
    refine List.Pairwise.cons ?_ (ih (i + 1))
    intro q hq
    have := (mem_enumF hq).1
    omega

theorem enumF_snd_mem {α : Type _} {i : ℕ} {l : List α} {p : ℕ × α} (h : p ∈ enumF i l) :
    p.2 ∈ l := by
  rcases mem_enumF h with ⟨-, -, h3⟩
  exact List.get?_mem h3

/-! ## Lemmas about the parser sentinel and the duration view -/

theorem parse_eq_top_iff (s : String) :
    parse_iso_duration_to_minutes s = ⊤ ↔ s.toList.take 2 ≠ ['P', 'T'] := by
  show parse_iso_duration_to_minutes s = ⊤ ↔ s.data.take 2 ≠ ['P', 'T']
  rcases hl : s.data with _ | ⟨c1, t⟩
  · simp [parse_iso_duration_to_minutes, String.toList, hl]
  · rcases t with _ | ⟨c2, rest⟩
    · simp [parse_iso_duration_to_minutes, String.toList, hl]
    · by_cases hc : c1 = 'P' ∧ c2 = 'T'
      · rcases hc with ⟨rfl, rfl⟩
        simp [parse_iso_duration_to_minutes, String.toList, hl]
      · have htake : (c1 :: c2 :: rest).take 2 = [c1, c2] := rfl
        simp only [parse_iso_duration_to_minutes, String.toList, hl, if_neg hc, htake]
        constructor
        · intro _ hcon
          injection hcon with h1 h2
          injection h2 with h2 _
          exact hc ⟨h1, h2⟩
        · intro _
          trivial

theorem truthy_of_parse_ne_top {s : String} (h : parse_iso_duration_to_minutes s ≠ ⊤) :
    (!s.toList.isEmpty) = true := by
  rcases hl : s.data with _ | ⟨c1, t⟩
  · exfalso
    apply h
    simp [parse_iso_duration_to_minutes, String.toList, hl]
  · simp [String.toList, hl]

theorem parseDur_ne_top_duration {o : Offer} (h : parseDur o ≠ ⊤) :
    ∃ s : String, o.duration = some s ∧ parse_iso_duration_to_minutes s ≠ ⊤ := by
  rcases hd : o.duration with _ | s
  · exfalso
    apply h
    simp [parseDur, hd]
    rfl
  · exact ⟨s, rfl, by simpa [parseDur, hd] using h⟩

theorem mem_timedView_iff (options : List Offer) (io : ℕ × Offer) :
    io ∈ timedView options ↔ io ∈ enumF 0 options ∧ parseDur io.2 ≠ ⊤ := by
  simp only [timedView, List.mem_filter, Bool.and_eq_true, decide_eq_true_eq]
  constructor
  · rintro ⟨h1, -, h3⟩
    exact ⟨h1, h3⟩
  · rintro ⟨h1, h3⟩
    refine ⟨h1, ?_, h3⟩
    rcases parseDur_ne_top_duration h3 with ⟨s, hd, hs⟩
    simpa [truthyStr, hd] using truthy_of_parse_ne_top hs

theorem mem_pricedView_iff (options : List Offer) (io : ℕ × Offer) :
    io ∈ pricedView options ↔ io ∈ enumF 0 options ∧ io.2.price.isSome = true := by
  simp [pricedView, List.mem_filter]

/-! ## Structure of the discard loop -/

theorem buildDiscarded_entries (c : ℕ × Offer) (f : Option (ℕ × Offer)) :
    ∀ (l : List (ℕ × Offer)) (ds : List DiscardedEntry),
      buildDiscarded c f l = Except.ok ds →
      ds.map (fun e => (e.idx, e.offer)) = l.filter fun io => !(isSelected c f io.1)
  | [], ds => by
    intro h
    simp only [buildDiscarded] at h
    injection h with h
    subst h
    rfl
  | io :: rest, ds => by
    intro h
    simp only [buildDiscarded] at h
    by_cases hs : isSelected c f io.1
    · rw [if_pos hs] at h
      rw [List.filter_cons_of_neg (by simp [hs])]
      exact buildDiscarded_entries c f rest ds h
    · rw [if_neg hs] at h
      rcases hr : buildReasons c f io.2 with e | rs
      · rw [hr] at h
        exact absurd h (by simp)
      · rw [hr] at h
        rcases hd : buildDiscarded c f rest with e | ds'
        · rw [hd] at h
          exact absurd h (by simp)
        · rw [hd] at h
          injection h with h
          subst h
          rw [List.filter_cons_of_pos (by simp [hs])]
          simpa using buildDiscarded_entries c f rest ds' hd

theorem buildDiscarded_idx (c : ℕ × Offer) (f : Option (ℕ × Offer))
    (l : List (ℕ × Offer)) (ds : List DiscardedEntry)
    (h : buildDiscarded c f l = Except.ok ds) :
    ds.map DiscardedEntry.idx = (l.map Prod.fst).filter fun i => !(isSelected c f i) := by
  have he := buildDiscarded_entries c f l ds h
  have hm : ds.map DiscardedEntry.idx = (ds.map fun e => (e.idx, e.offer)).map Prod.fst := by
    simp [List.map_map]
  rw [hm, he, List.filter_map]
  rfl

/-! ## Inversion of a successful analysis -/

theorem analyze_ok_inv (offers : List Offer) (r : AnalysisResult)
    (h : analyze_best_routes (some offers) = AnalyzeOutput.ok r) :
    offers ≠ [] ∧
    firstMinBy (fun io => io.2.price.getD 0) (pricedView offers) = some r.cheapest ∧
    firstMinBy (fun io => parseDur io.2) (timedView offers) = r.fastest ∧
    buildDiscarded r.cheapest r.fastest (enumF 0 offers) = Except.ok r.discarded ∧
    r.total_options = offers.length := by
  simp only [analyze_best_routes] at h
  split at h
  next he => exact absurd h (by simp)
  next he =>
  split at h
  next hc => exact absurd h (by simp)
  next cheapest hc =>
  split at h
  next e hd => exact absurd h (by simp)
  next ds hd =>
  injection h with h
  subst h
  exact ⟨by simpa using he, hc, rfl, hd, rfl⟩

/-! ## Claim theorems -/

/-- C1: the claim says a malformed duration on a non-selected offer never
makes the analysis as a whole fail.  The code contradicts this: on the input
below (cheapest = fastest = offer 0; offer 1 has price 20 and the malformed
duration "garbage"), the discard loop computes `time_diff = inf`, and
`int(inf // 60)` raises `ValueError`, so `analyze_best_routes` returns the
`"Analysis failed"` error record instead of a normal analysis result. -/
theorem analyze_malformed_duration_fails :
    analyze_best_routes (some [⟨some 10, none, some "PT1H"⟩, ⟨some 20, none, some "garbage"⟩]) =
      AnalyzeOutput.error "Analysis failed" "cannot convert float NaN to integer" := by
  decide

/-- C2 counterexample: `"PT5"` does not match the expected grammar, yet the
parser returns the finite value `0` rather than the infinity sentinel,
because `re.match` only anchors at the start of the string. -/
theorem parse_prefix_match_cex :
    matchesIsoGrammar "PT5" = false ∧
    parse_iso_duration_to_minutes "PT5" = ((0 : ℕ) : WithTop ℕ) ∧
    parse_iso_duration_to_minutes "PT5" ≠ ⊤ := by
  refine ⟨by decide, by decide, by decide⟩

/-- C2 (amended): for every string of the expected grammar the parser
returns `hours * 60 + minutes` (so `"PT2H30M"` parses to `150`), and the
parser returns the infinity sentinel exactly for the strings that do not
start with `"PT"`; a string that starts with `"PT"` but then deviates from
the grammar gets a finite value computed from the matching prefix. -/
theorem parse_iso_duration_grammar (hs ms : List Char)
    (hh : hs ≠ []) (hhd : ∀ c ∈ hs, c.isDigit = true)
    (hm : ms ≠ []) (hmd : ∀ c ∈ ms, c.isDigit = true) :
    parse_iso_duration_to_minutes ⟨'P' :: 'T' :: (hs ++ ('H' :: (ms ++ ['M'])))⟩ =
      ((digitsVal hs * 60 + digitsVal ms : ℕ) : WithTop ℕ) ∧
    parse_iso_duration_to_minutes ⟨'P' :: 'T' :: (hs ++ ['H'])⟩ =
      ((digitsVal hs * 60 : ℕ) : WithTop ℕ) ∧
    parse_iso_duration_to_minutes ⟨'P' :: 'T' :: (ms ++ ['M'])⟩ =
      ((digitsVal ms : ℕ) : WithTop ℕ) ∧
    parse_iso_duration_to_minutes "PT" = ((0 : ℕ) : WithTop ℕ) ∧
    parse_iso_duration_to_minutes "PT2H30M" = ((150 : ℕ) : WithTop ℕ) ∧
    (∀ s : String, parse_iso_duration_to_minutes s = ⊤ ↔ s.toList.take 2 ≠ ['P', 'T']) ∧
    (∀ s : String, matchesIsoGrammar s = true → parse_iso_duration_to_minutes s ≠ ⊤) := by
  have e1 : parse_iso_duration_to_minutes ⟨'P' :: 'T' :: (hs ++ ('H' :: (ms ++ ['M'])))⟩ =
      ((parseCore (hs ++ ('H' :: (ms ++ ['M']))) : ℕ) : WithTop ℕ) := rfl
  have e2 : parse_iso_duration_to_minutes ⟨'P' :: 'T' :: (hs ++ ['H'])⟩ =
      ((parseCore (hs ++ ['H']) : ℕ) : WithTop ℕ) := rfl
  have e3 : parse_iso_duration_to_minutes ⟨'P' :: 'T' :: (ms ++ ['M'])⟩ =
      ((parseCore (ms ++ ['M']) : ℕ) : WithTop ℕ) := rfl
  refine ⟨?_, ?_, ?_, by decide, by decide, parse_eq_top_iff, ?_⟩
  · rw [e1, parseCore_hm hs ms hh hhd hm hmd]
  · rw [e2, parseCore_h hs hh hhd]
  · rw [e3, parseCore_m ms hm hmd]
  · intro s hg htop
    rw [parse_eq_top_iff] at htop
    apply htop
    rcases hl : s.data with _ | ⟨c1, t⟩
    · simp [matchesIsoGrammar, String.toList, hl] at hg
    · rcases t with _ | ⟨c2, rest⟩
      · simp [matchesIsoGrammar, String.toList, hl] at hg
      · by_cases hc : c1 = 'P' ∧ c2 = 'T'
        · rcases hc with ⟨rfl, rfl⟩
          show List.take 2 s.data = ['P', 'T']
          rw [hl]
          rfl
        · simp [matchesIsoGrammar, String.toList, hl, hc] at hg

/-- C2 witness: the amended theorem at `hs = "2"`, `ms = "30"`, together
with the sentinel behaviour on `"garbage"`. -/
theorem parse_iso_duration_grammar_witness :
    parse_iso_duration_to_minutes "PT2H30M" = ((150 : ℕ) : WithTop ℕ) ∧
    parse_iso_duration_to_minutes "garbage" = ⊤ := by
  have h := parse_iso_duration_grammar ['2'] ['3', '0'] (by decide) (by decide) (by decide)
    (by decide)
  exact ⟨h.2.2.2.2.1, by decide⟩

/-- C7: `analyze_best_routes` returns the "empty input" error record when
the option list is missing or empty, and the distinct "no priceable
options" error record when the list is non-empty but no offer has a
price. -/
theorem analyze_error_conditions :
    analyze_best_routes none = AnalyzeOutput.error "No options provided to analyze"
      "Please provide transportation options to analyze" ∧
    analyze_best_routes (some []) = AnalyzeOutput.error "No options provided to analyze"
      "Please provide transportation options to analyze" ∧
    (∀ offers : List Offer, offers ≠ [] → (∀ o ∈ offers, o.price = none) →
      analyze_best_routes (some offers) = AnalyzeOutput.error "No options with valid prices"
        "Cannot determine cheapest option without pricing information") ∧
    ("No options provided to analyze" : String) ≠ "No options with valid prices" := by
  refine ⟨rfl, rfl, ?_, by decide⟩
  intro offers hne hall
  have hpv : pricedView offers = [] := by
    rw [pricedView, List.filter_eq_nil_iff]
    intro io hio
    have hm := enumF_snd_mem hio
    simp [hall io.2 hm]
  simp only [analyze_best_routes]
  rw [if_neg (by simpa using hne), hpv]
  rfl

/-- C7 witness: a single offer with no price triggers the "no priceable
options" condition. -/
theorem analyze_error_conditions_witness :
    analyze_best_routes (some [⟨none, none, none⟩]) = AnalyzeOutput.error
      "No options with valid prices"
      "Cannot determine cheapest option without pricing information" :=
  analyze_error_conditions.2.2.1 [⟨none, none, none⟩] (by decide) (by decide)

/-- Helper: full characterisation of the `cheapest` selection of a
successful analysis. -/
theorem cheapest_spec (offers : List Offer) (r : AnalysisResult)
    (h : analyze_best_routes (some offers) = AnalyzeOutput.ok r) :
    r.cheapest.1 < offers.length ∧
    offers.get? r.cheapest.1 = some r.cheapest.2 ∧
    ∃ cp : ℚ, r.cheapest.2.price = some cp ∧
      (∀ o ∈ offers, ∀ p : ℚ, o.price = some p → cp ≤ p) ∧
      (∀ j, j < r.cheapest.1 → ∀ o : Offer, offers.get? j = some o →
        ∀ p : ℚ, o.price = some p → cp < p) := by
  obtain ⟨-, hc, -, -, -⟩ := analyze_ok_inv offers r h
  have hmemPV := firstMinBy_mem hc
  obtain ⟨hmemE, hps⟩ := (mem_pricedView_iff offers r.cheapest).mp hmemPV
  obtain ⟨-, hlt, hget⟩ := mem_enumF hmemE
  obtain ⟨cp, hcp⟩ := Option.isSome_iff_exists.mp hps
  refine ⟨by simpa using hlt, by simpa using hget, cp, hcp, ?_, ?_⟩
  · intro o ho p hp
    obtain ⟨j, hj⟩ := List.mem_iff_get?.mp ho
    have hjm : (0 + j, o) ∈ enumF 0 offers := enumF_mem 0 hj
    have hpv : (0 + j, o) ∈ pricedView offers :=
      (mem_pricedView_iff offers (0 + j, o)).mpr ⟨hjm, by simp [hp]⟩
    have hle := firstMinBy_le hc _ hpv
    simpa [hcp, hp] using hle
  · intro j hjlt o hj p hp
    have hjm : (0 + j, o) ∈ enumF 0 offers := enumF_mem 0 hj
    have hpv : (0 + j, o) ∈ pricedView offers :=
      (mem_pricedView_iff offers (0 + j, o)).mpr ⟨hjm, by simp [hp]⟩
    obtain ⟨l₁, l₂, hsplit, hl1, hl2⟩ := firstMinBy_split _ _ _ hc
    have hpw : (pricedView offers).Pairwise fun p q => p.1 < q.1 :=
      List.Pairwise.sublist (List.filter_sublist _) (enumF_pairwise 0 offers)
    rw [hsplit] at hpw hpv
    rcases List.mem_append.mp hpv with h1 | h12
    · have := hl1 _ h1
      simpa [hcp, hp] using this
    · rcases List.mem_cons.mp h12 with heq | h2
      · exfalso
        have : 0 + j = r.cheapest.1 := congrArg Prod.fst heq
        omega
      · exfalso
        rcases List.pairwise_append.mp hpw with ⟨-, hpc, -⟩
        have := (List.pairwise_cons.mp hpc).1 _ h2
        simp only at this
        omega

/-- C5: whenever `analyze_best_routes` returns an analysis result, its
`cheapest` is one of the input offers, carries a price, that price is a
lower bound on every priced input offer, and every earlier input offer
with a price is strictly more expensive (stable first-occurrence
tie-break). -/
theorem analyze_cheapest_minimal (offers : List Offer) (r : AnalysisResult)
    (h : analyze_best_routes (some offers) = AnalyzeOutput.ok r) :
    r.cheapest.1 < offers.length ∧
    offers.get? r.cheapest.1 = some r.cheapest.2 ∧
    ∃ cp : ℚ, r.cheapest.2.price = some cp ∧
      (∀ o ∈ offers, ∀ p : ℚ, o.price = some p → cp ≤ p) ∧
      (∀ j, j < r.cheapest.1 → ∀ o : Offer, offers.get? j = some o →
        ∀ p : ℚ, o.price = some p → cp < p) :=
  cheapest_spec offers r h

/-- C5 witness: on `offers5` the cheapest is the price-4 offer at position 1
(the first of the two price-4 offers), and it is an input offer. -/
theorem analyze_cheapest_minimal_witness :
    analyze_best_routes (some offers5) = AnalyzeOutput.ok result5 ∧
    result5.cheapest.1 < offers5.length ∧
    offers5.get? result5.cheapest.1 = some result5.cheapest.2 ∧
    result5.cheapest.2.price = some 4 := by
  have h : analyze_best_routes (some offers5) = AnalyzeOutput.ok result5 := by decide
  obtain ⟨h1, h2, -⟩ := analyze_cheapest_minimal offers5 result5 h
  exact ⟨h, h1, h2, by decide⟩

/-- Helper: full characterisation of the `fastest` selection of a
successful analysis. -/
theorem fastest_spec (offers : List Offer) (r : AnalysisResult)
    (h : analyze_best_routes (some offers) = AnalyzeOutput.ok r)
    (fi : ℕ) (fo : Offer) (hf : r.fastest = some (fi, fo)) :
    fi < offers.length ∧ offers.get? fi = some fo ∧ parseDur fo ≠ ⊤ ∧
    (∀ o ∈ offers, parseDur fo ≤ parseDur o) ∧
    (∀ j, j < fi → ∀ o : Offer, offers.get? j = some o → parseDur fo < parseDur o) := by
  obtain ⟨-, -, hfast, -, -⟩ := analyze_ok_inv offers r h
  rw [hf] at hfast
  have hmemTV := firstMinBy_mem hfast
  obtain ⟨hmemE, hne⟩ := (mem_timedView_iff offers (fi, fo)).mp hmemTV
  obtain ⟨-, hlt, hget⟩ := mem_enumF hmemE
  refine ⟨by simpa using hlt, by simpa using hget, hne, ?_, ?_⟩
  · intro o ho
    by_cases hot : parseDur o = ⊤
    · rw [hot]
      exact le_top
    · obtain ⟨j, hj⟩ := List.mem_iff_get?.mp ho
      have htv : (0 + j, o) ∈ timedView offers :=
        (mem_timedView_iff offers (0 + j, o)).mpr ⟨enumF_mem 0 hj, hot⟩
      simpa using firstMinBy_le hfast _ htv
  · intro j hjlt o hj
    by_cases hot : parseDur o = ⊤
    · rw [hot]
      exact lt_top_iff_ne_top.mpr hne
    · have htv : (0 + j, o) ∈ timedView offers :=
        (mem_timedView_iff offers (0 + j, o)).mpr ⟨enumF_mem 0 hj, hot⟩
      obtain ⟨l₁, l₂, hsplit, hl1, hl2⟩ := firstMinBy_split _ _ _ hfast
      have hpw : (timedView offers).Pairwise fun p q => p.1 < q.1 :=
        List.Pairwise.sublist (List.filter_sublist _) (enumF_pairwise 0 offers)
      rw [hsplit] at hpw htv
      rcases List.mem_append.mp htv with h1 | h12
      · simpa using hl1 _ h1
      · rcases List.mem_cons.mp h12 with heq | h2
        · exfalso
          have hfst : 0 + j = fi := by
            have := congrArg Prod.fst heq
            simpa using this
          omega
        · exfalso
          rcases List.pairwise_append.mp hpw with ⟨-, hpc, -⟩
          have hfst := (List.pairwise_cons.mp hpc).1 _ h2
          simp only at hfst
          omega

/-- Helper: a successful analysis has a `fastest` as soon as some offer has
a finite parsed duration. -/
theorem fastest_some (offers : List Offer) (r : AnalysisResult)
    (h : analyze_best_routes (some offers) = AnalyzeOutput.ok r)
    (hx : ∃ o ∈ offers, parseDur o ≠ ⊤) :
    ∃ fi : ℕ, ∃ fo : Offer, r.fastest = some (fi, fo) := by
  obtain ⟨-, -, hfast, -, -⟩ := analyze_ok_inv offers r h
  obtain ⟨o, ho, hot⟩ := hx
  obtain ⟨j, hj⟩ := List.mem_iff_get?.mp ho
  have htv : (0 + j, o) ∈ timedView offers :=
    (mem_timedView_iff offers (0 + j, o)).mpr ⟨enumF_mem 0 hj, hot⟩
  have hnil : timedView offers ≠ [] := by
    intro hnil
    rw [hnil] at htv
    simp at htv
  obtain ⟨a, ha⟩ := firstMinBy_isSome (fun io => parseDur io.2) _ hnil
  rw [ha] at hfast
  exact ⟨a.1, a.2, by rw [← hfast]⟩

/-- C6: when some offer's duration parses to a finite number of minutes,
the returned `fastest` is an input offer with a finite parsed duration that
is a lower bound on every input offer's parsed duration (unparseable ones
count as the infinity sentinel), earlier offers are strictly slower
(first-occurrence tie-break), and the `cheapest` selection still ranges
over all priced offers regardless of their durations. -/
theorem analyze_fastest_minimal (offers : List Offer) (r : AnalysisResult)
    (h : analyze_best_routes (some offers) = AnalyzeOutput.ok r)
    (hx : ∃ o ∈ offers, parseDur o ≠ ⊤) :
    ∃ fi : ℕ, ∃ fo : Offer, r.fastest = some (fi, fo) ∧ fi < offers.length ∧
      offers.get? fi = some fo ∧ parseDur fo ≠ ⊤ ∧
      (∀ o ∈ offers, parseDur fo ≤ parseDur o) ∧
      (∀ j, j < fi → ∀ o : Offer, offers.get? j = some o → parseDur fo < parseDur o) ∧
      ∃ cp : ℚ, r.cheapest.2.price = some cp ∧
        ∀ o ∈ offers, ∀ p : ℚ, o.price = some p → cp ≤ p := by
  obtain ⟨fi, fo, hf⟩ := fastest_some offers r h hx
  obtain ⟨h1, h2, h3, h4, h5⟩ := fastest_spec offers r h fi fo hf
  obtain ⟨-, -, cp, hcp, hmin, -⟩ := cheapest_spec offers r h
  exact ⟨fi, fo, hf, h1, h2, h3, h4, h5, cp, hcp, hmin⟩

/-- C6 witness: on `offers6` the offer with the unparseable duration
"garbage" is excluded from `fastest` (which is the PT1H offer) but is still
selected as `cheapest`. -/
theorem analyze_fastest_minimal_witness :
    analyze_best_routes (some offers6) = AnalyzeOutput.ok result6 ∧
    result6.fastest = some (1, ⟨some 9, none, some "PT1H"⟩) ∧
    result6.cheapest = (0, ⟨some 5, none, some "garbage"⟩) ∧
    parseDur (⟨some 5, none, some "garbage"⟩ : Offer) = ⊤ := by
  have h : analyze_best_routes (some offers6) = AnalyzeOutput.ok result6 := by decide
  obtain ⟨fi, fo, hf, -⟩ := analyze_fastest_minimal offers6 result6 h
    ⟨⟨some 9, none, some "PT1H"⟩, by decide, by decide⟩
  exact ⟨h, by decide, by decide, by decide⟩

/-- Helper: every discarded entry produced by the discard loop carries at
least one reason (the generic fallback is substituted when both axis
comparisons are silent). -/
theorem buildDiscarded_reasons_nonempty (c : ℕ × Offer) (f : Option (ℕ × Offer)) :
    ∀ (l : List (ℕ × Offer)) (ds : List DiscardedEntry),
      buildDiscarded c f l = Except.ok ds → ∀ e ∈ ds, e.reasons ≠ []
  | [], ds => by
    intro h e he
    simp only [buildDiscarded] at h
    injection h with h
    subst h
    simp at he
  | io :: rest, ds => by
    intro h e he
    simp only [buildDiscarded] at h
    by_cases hs : isSelected c f io.1
    · rw [if_pos hs] at h
      exact buildDiscarded_reasons_nonempty c f rest ds h e he
    · rw [if_neg hs] at h
      rcases hr : buildReasons c f io.2 with er | rs
      · rw [hr] at h
        exact absurd h (by simp)
      · rw [hr] at h
        rcases hd : buildDiscarded c f rest with er | ds'
        · rw [hd] at h
          exact absurd h (by simp)
        · rw [hd] at h
          injection h with h
          subst h
          rcases List.mem_cons.mp he with rfl | he'
          · rcases rs with _ | ⟨a, t⟩
            · simp
            · simp
          · exact buildDiscarded_reasons_nonempty c f rest ds' hd e he'

/-- C4: on the spec scenario the code selects the bus(45) as cheapest and
the flight(120) as fastest and discards the train(95) with exactly the two
reasons `"50.00 EUR more expensive than cheapest"` and
`"5h 30m slower than fastest"`; and in every successful analysis every
discarded entry carries at least one reason (the generic fallback when
neither axis yields one). -/
theorem analyze_discard_reasons :
    analyze_best_routes (some scenarioOffers) = AnalyzeOutput.ok scenarioResult ∧
    ∀ offers : List Offer, ∀ r : AnalysisResult,
      analyze_best_routes (some offers) = AnalyzeOutput.ok r →
      ∀ e ∈ r.discarded, e.reasons ≠ [] := by
  refine ⟨by decide, ?_⟩
  intro offers r h e he
  obtain ⟨-, -, -, hd, -⟩ := analyze_ok_inv offers r h
  exact buildDiscarded_reasons_nonempty r.cheapest r.fastest _ _ hd e he

/-- C4 witness: the scenario's sole discarded entry, with its two reasons. -/
theorem analyze_discard_reasons_witness :
    (["50.00 EUR more expensive than cheapest", "5h 30m slower than fastest"] :
      List String) ≠ [] ∧
    scenarioResult.discarded.length = 1 := by
  refine ⟨?_, by decide⟩
  exact analyze_discard_reasons.2 scenarioOffers scenarioResult analyze_discard_reasons.1
    ⟨2, ⟨some 95, none, some "PT8H0M"⟩,
      ["50.00 EUR more expensive than cheapest", "5h 30m slower than fastest"]⟩ (by decide)

/-- Helper: the positions of `enumF i l` are `i, i+1, ...`. -/
theorem enumF_map_fst {α : Type _} (i : ℕ) (l : List α) :
    (enumF i l).map Prod.fst = List.range' i l.length := by
  induction l generalizing i with
  | nil => rfl
  | cons a as ih => simp [enumF, List.range', ih]

/-- Helper: unpacking `isSelected ... = false`. -/
theorem isSelected_eq_false_iff (c : ℕ × Offer) (f : Option (ℕ × Offer)) (i : ℕ) :
    isSelected c f i = false ↔
      i ≠ c.1 ∧ ∀ fi : ℕ, ∀ fo : Offer, f = some (fi, fo) → i ≠ fi := by
  cases f with
  | none => simp [isSelected]
  | some p =>
    cases p with
    | mk fi fo => simp [isSelected, and_comm]

/-- Helper: the number of non-selected positions among `0, ..., n-1` is `n`
minus the size of the selected set. -/
theorem filter_not_selected_length (n : ℕ) (c : ℕ × Offer) (f : Option (ℕ × Offer))
    (hc : c.1 < n) (hf : ∀ fi : ℕ, ∀ fo : Offer, f = some (fi, fo) → fi < n) :
    ((List.range n).filter fun i => !(isSelected c f i)).length =
      n - ({c.1} ∪ (f.elim ∅ fun p => {p.1}) : Finset ℕ).card := by
  have hnd := List.nodup_range n
  cases f with
  | none =>
    have hp : (fun i => !(isSelected c (none : Option (ℕ × Offer)) i)) =
        fun i => i != c.1 := by
      funext i
      simp [isSelected, bne]
    rw [hp, ← List.Nodup.erase_eq_filter hnd c.1]
    rw [List.length_erase_of_mem (List.mem_range.mpr hc), List.length_range]
    simp
  | some p =>
    by_cases hpc : p.1 = c.1
    · have hp : (fun i => !(isSelected c (some p) i)) = fun i => i != c.1 := by
        funext i
        simp [isSelected, hpc, bne]
      rw [hp, ← List.Nodup.erase_eq_filter hnd c.1]
      rw [List.length_erase_of_mem (List.mem_range.mpr hc), List.length_range]
      have hcard : ({c.1} ∪ ({p.1} : Finset ℕ)) = {c.1} := by
        rw [hpc]
        simp
      simp [hcard]
    · have hp : (fun i => !(isSelected c (some p) i)) =
          fun i => (i != c.1) && (i != p.1) := by
        funext i
        simp [isSelected, bne]
      rw [hp, ← List.filter_filter, ← List.Nodup.erase_eq_filter hnd p.1]
      have hnd2 : ((List.range n).erase p.1).Nodup := hnd.erase p.1
      rw [← List.Nodup.erase_eq_filter hnd2 c.1]
      have hcmem : c.1 ∈ (List.range n).erase p.1 := by
        rw [List.mem_erase_of_ne fun hcp => hpc hcp.symm]
        exact List.mem_range.mpr hc
      rw [List.length_erase_of_mem hcmem,
        List.length_erase_of_mem (List.mem_range.mpr (hf p.1 p.2 rfl)), List.length_range]
      have hcard : ({c.1} ∪ ({p.1} : Finset ℕ)).card = 2 := by
        have hu : ({c.1} ∪ ({p.1} : Finset ℕ)) = {c.1, p.1} := by
          ext x
          simp
        rw [hu]
        exact Finset.card_pair fun hcp => hpc hcp.symm
      simp only [Option.elim, hcard]
      omega

/-- C3: in every successful analysis the discarded entries are exactly the
non-selected input positions in input order (selection being positional,
so a later duplicate of a selected offer's values is still discarded);
no selected offer appears among them, every non-selected position appears
exactly once, and `|discarded| = |offers| - |{cheapest} ∪ {fastest}|`. -/
theorem analyze_partition (offers : List Offer) (r : AnalysisResult)
    (h : analyze_best_routes (some offers) = AnalyzeOutput.ok r) :
    (r.discarded.map fun e => (e.idx, e.offer)) =
      (enumF 0 offers).filter (fun io => !(isSelected r.cheapest r.fastest io.1)) ∧
    r.discarded.map DiscardedEntry.idx =
      (List.range offers.length).filter (fun i => !(isSelected r.cheapest r.fastest i)) ∧
    (∀ e ∈ r.discarded, e.idx ≠ r.cheapest.1 ∧
      ∀ fi : ℕ, ∀ fo : Offer, r.fastest = some (fi, fo) → e.idx ≠ fi) ∧
    (∀ i, i < offers.length → isSelected r.cheapest r.fastest i = false →
      (r.discarded.map DiscardedEntry.idx).count i = 1) ∧
    r.discarded.length =
      offers.length -
        ({r.cheapest.1} ∪ (r.fastest.elim ∅ fun p => {p.1}) : Finset ℕ).card := by
  obtain ⟨-, -, -, hd, -⟩ := analyze_ok_inv offers r h
  have h1 := buildDiscarded_entries r.cheapest r.fastest _ _ hd
  have h2 := buildDiscarded_idx r.cheapest r.fastest _ _ hd
  rw [enumF_map_fst, ← List.range_eq_range'] at h2
  refine ⟨h1, h2, ?_, ?_, ?_⟩
  · intro e he
    have hmem : (e.idx, e.offer) ∈ r.discarded.map fun e => (e.idx, e.offer) :=
      List.mem_map_of_mem _ he
    rw [h1] at hmem
    have hpred := List.of_mem_filter hmem
    have hfalse : isSelected r.cheapest r.fastest e.idx = false := by
      simpa using hpred
    exact (isSelected_eq_false_iff _ _ _).mp hfalse
  · intro i hi hsel
    rw [h2]
    have hmem : i ∈ (List.range offers.length).filter
        (fun i => !(isSelected r.cheapest r.fastest i)) :=
      List.mem_filter.mpr ⟨List.mem_range.mpr hi, by simp [hsel]⟩
    exact List.count_eq_one_of_mem ((List.nodup_range _).filter _) hmem
  · have hlen : r.discarded.length = (r.discarded.map DiscardedEntry.idx).length :=
      (List.length_map _ _).symm
    rw [hlen, h2]
    obtain ⟨hclt, -, -⟩ := cheapest_spec offers r h
    refine filter_not_selected_length offers.length r.cheapest r.fastest hclt ?_
    intro fi fo hf
    exact (fastest_spec offers r h fi fo hf).1

/-- C3 witness: on `offers5` the two non-selected positions 0 and 2 are
discarded (position 2 duplicates the cheapest's values but is still
discarded), and the length bookkeeping holds. -/
theorem analyze_partition_witness :
    analyze_best_routes (some offers5) = AnalyzeOutput.ok result5 ∧
    result5.discarded.map DiscardedEntry.idx = [0, 2] ∧
    result5.discarded.length = offers5.length -
      ({result5.cheapest.1} ∪ (result5.fastest.elim ∅ fun p => {p.1}) : Finset ℕ).card := by
  have h : analyze_best_routes (some offers5) = AnalyzeOutput.ok result5 := by decide
  obtain ⟨-, -, -, -, hlen⟩ := analyze_partition offers5 result5 h
  exact ⟨h, by decide, hlen⟩

/-! ## Lemmas about the permutation enumeration -/

theorem removals_length {α : Type _} (l : List α) : (removals l).length = l.length := by
  induction l with
  | nil => rfl
  | cons a as ih => simp [removals, ih]

theorem removals_snd_length {α : Type _} :
    ∀ {l : List α} {p : α × List α}, p ∈ removals l → p.2.length + 1 = l.length := by
  intro l
  induction l with
  | nil => intro p hp; simp [removals] at hp
  | cons a as ih =>
    intro p hp
    rcases List.mem_cons.mp hp with rfl | hp
    · simp
    · rcases List.mem_map.mp hp with ⟨q, hq, rfl⟩
      have := ih hq
      simp only [List.length_cons]
      omega

theorem removals_split {α : Type _} :
    ∀ {l : List α} {p : α × List α}, p ∈ removals l →
      ∃ l₁ l₂, l = l₁ ++ p.1 :: l₂ ∧ p.2 = l₁ ++ l₂ := by
  intro l
  induction l with
  | nil => intro p hp; simp [removals] at hp
  | cons a as ih =>
    intro p hp
    rcases List.mem_cons.mp hp with rfl | hp
    · exact ⟨[], as, rfl, rfl⟩
    · rcases List.mem_map.mp hp with ⟨q, hq, rfl⟩
      rcases ih hq with ⟨l₁, l₂, h1, h2⟩
      exact ⟨a :: l₁, l₂, by simp [h1], by simp [h2]⟩

theorem removals_of_split {α : Type _} (a : α) :
    ∀ (l₁ l₂ : List α), (a, l₁ ++ l₂) ∈ removals (l₁ ++ a :: l₂) := by
  intro l₁
  induction l₁ with
  | nil => intro l₂; simp [removals]
  | cons x t ih =>
    intro l₂
    simp only [List.cons_append, removals, List.mem_cons]
    right
    exact List.mem_map.mpr ⟨(a, t ++ l₂), ih l₂, rfl⟩

theorem permAux_length {α : Type _} :
    ∀ (n : ℕ) (l : List α), l.length = n → (permAux n l).length = Nat.factorial n
  | 0, l => by
    intro h
    simp [permAux, Nat.factorial]
  | n + 1, l => by
    intro h
    simp only [permAux]
    rw [List.length_flatten, List.map_map]
    have hmap : ((removals l).map (List.length ∘ fun p => (permAux n p.2).map (p.1 :: ·)))
        = (removals l).map fun p => Nat.factorial n := by
      apply List.map_congr_left
      intro p hp
      simp only [Function.comp_apply, List.length_map]
      exact permAux_length n p.2 (by have := removals_snd_length hp; omega)
    rw [hmap, List.map_const', List.sum_replicate, removals_length, h, smul_eq_mul]
    rw [Nat.factorial_succ]

theorem permAux_perm {α : Type _} :
    ∀ (n : ℕ) (l : List α) (p : List α), l.length = n →
      (p ∈ permAux n l ↔ p.Perm l)
  | 0, l, p => by
    intro h
    have hl : l = [] := List.length_eq_zero.mp h
    subst hl
    simp only [permAux, List.mem_singleton]
    constructor
    · rintro rfl
      exact List.Perm.refl []
    · intro hp
      exact List.Perm.eq_nil hp
  | n + 1, l, p => by
    intro h
    simp only [permAux, List.mem_flatten, List.mem_map]
    constructor
    · rintro ⟨sub, ⟨q, hq, rfl⟩, hmem⟩
      rcases List.mem_map.mp hmem with ⟨t, ht, rfl⟩
      have hlen : q.2.length = n := by have := removals_snd_length hq; omega
      have htp : t.Perm q.2 := (permAux_perm n q.2 t hlen).mp ht
      rcases removals_split hq with ⟨l₁, l₂, h1, h2⟩
      rw [h1]
      rw [h2] at htp
      exact (htp.cons q.1).trans List.perm_middle.symm
    · intro hp
      have hlenp : p.length = n + 1 := by rw [hp.length_eq, h]
      rcases p with _ | ⟨a, t⟩
      · simp at hlenp
      · have ha : a ∈ l := hp.mem_iff.mp (List.mem_cons_self a t)
        rcases List.append_of_mem ha with ⟨l₁, l₂, rfl⟩
        have htp : t.Perm (l₁ ++ l₂) :=
          (hp.trans List.perm_middle).cons_inv
        have hlen : (l₁ ++ l₂).length = n := by
          have := hp.length_eq
          simp at this hlenp ⊢
          omega
        refine ⟨(permAux n (l₁ ++ l₂)).map (a :: ·), ⟨(a, l₁ ++ l₂), removals_of_split a l₁ l₂, rfl⟩, ?_⟩
        exact List.mem_map.mpr ⟨t, (permAux_perm n (l₁ ++ l₂) t hlen).mpr htp, rfl⟩

/-- C8: for any city list the optimizer's permutation enumeration has
exactly `n!` entries and contains precisely the permutations of the input
(no fixed start city); a missing list or fewer than two cities yields the
"insufficient cities" error record instead. -/
theorem optimize_permutation_count (ls : String → String → ℕ → Option (List Offer)) (d0 : ℕ) :
    optimize_multi_city_route ls none d0 =
      OptimizeOutput.error "Need at least 2 cities to optimize route" ∧
    (∀ cities : List String, cities.length < 2 →
      optimize_multi_city_route ls (some cities) d0 =
        OptimizeOutput.error "Need at least 2 cities to optimize route") ∧
    (∀ cities : List String, (allPermutations cities).length = Nat.factorial cities.length) ∧
    (∀ cities p : List String, p ∈ allPermutations cities ↔ p.Perm cities) := by
  refine ⟨rfl, ?_, ?_, ?_⟩
  · intro cities hlt
    simp only [optimize_multi_city_route]
    rw [if_pos hlt]
  · intro cities
    exact permAux_length cities.length cities rfl
  · intro cities p
    exact permAux_perm cities.length cities p rfl

/-- C8 witness: 3 cities yield 6 candidate orders, 4 cities yield 24, and a
single city is rejected with the "insufficient cities" condition. -/
theorem optimize_permutation_count_witness :
    (allPermutations ["Paris", "Madrid", "Berlin"]).length = Nat.factorial 3 ∧
    (allPermutations ["Paris", "Madrid", "Berlin", "Rome"]).length = 24 ∧
    optimize_multi_city_route (fun _ _ _ => none) (some ["Paris"]) 0 =
      OptimizeOutput.error "Need at least 2 cities to optimize route" := by
  have h := optimize_permutation_count (fun _ _ _ => none) 0
  refine ⟨h.2.2.1 ["Paris", "Madrid", "Berlin"], ?_, h.2.1 ["Paris"] (by decide)⟩
  have h4 := h.2.2.1 ["Paris", "Madrid", "Berlin", "Rome"]
  rw [h4]
  decide

/-! ## Lemmas about the leg loop of the optimizer -/

theorem buildLegs_legs_spec (ls : String → String → ℕ → Option (List Offer)) :
    ∀ (d : ℕ) (cs : List String) (acc : List RouteLeg × ℚ × WithTop ℕ),
      buildLegs ls d cs = some acc →
      ∀ leg ∈ acc.1, ∃ opts : List Offer, ls leg.origin leg.dest leg.date = some opts ∧
        leg.option ∈ opts ∧ priceTruthy leg.option = true ∧
        ∀ o ∈ opts, priceTruthy o = true → leg.option.price.getD 0 ≤ o.price.getD 0
  | d, [], acc => by
    intro h leg hleg
    simp only [buildLegs] at h
    injection h with h
    subst h
    simp at hleg
  | d, [c], acc => by
    intro h leg hleg
    simp only [buildLegs] at h
    injection h with h
    subst h
    simp at hleg
  | d, a :: b :: rest, acc => by
    intro h leg hleg
    simp only [buildLegs] at h
    split at h
    next hlsa => exact absurd h (by simp)
    next opts hlsa =>
    split at h
    next hem => exact absurd h (by simp)
    next hem =>
    split at h
    next hlb => exact absurd h (by simp)
    next best hlb =>
    split at h
    next hbl => exact absurd h (by simp)
    next acc2 hbl =>
    injection h with h
    subst h
    rcases List.mem_cons.mp hleg with rfl | hleg2
    · simp only [legBest] at hlb
      have hmem := firstMinBy_mem hlb
      have hbf := List.mem_filter.mp hmem
      refine ⟨opts, hlsa, hbf.1, hbf.2, ?_⟩
      intro o ho hot
      have hof : o ∈ opts.filter priceTruthy := List.mem_filter.mpr ⟨ho, hot⟩
      exact firstMinBy_le hlb o hof
    · exact buildLegs_legs_spec ls (d + 1) (b :: rest) acc2 hbl leg hleg2

theorem buildLegs_invalid (ls : String → String → ℕ → Option (List Offer)) :
    ∀ (cs : List String) (d i : ℕ) (a b : String),
      cs.get? i = some a → cs.get? (i + 1) = some b →
      (∀ opts : List Offer, ls a b (d + i) = some opts → opts.filter priceTruthy = []) →
      buildLegs ls d cs = none
  | [], d, i, a, b => by
    intro ha hb hno
    simp at ha
  | [c], d, i, a, b => by
    intro ha hb hno
    rcases i with _ | j
    · simp at hb
    · simp at ha
  | c1 :: c2 :: rest, d, i, a, b => by
    intro ha hb hno
    rcases i with _ | j
    · simp only [List.get?_cons_zero] at ha
      simp only [List.get?_cons_succ, List.get?_cons_zero] at hb
      injection ha with ha
      injection hb with hb
      subst ha
      subst hb
      simp only [buildLegs]
      split
      · rfl
      next opts hlsa =>
      split
      · rfl
      next hem =>
      have hfe : opts.filter priceTruthy = [] := hno opts (by simpa using hlsa)
      have hlb : legBest opts = none := by
        simp [legBest, hfe, firstMinBy]
      rw [hlb]
    · simp only [List.get?_cons_succ] at ha hb
      have hrec := buildLegs_invalid ls (c2 :: rest) (d + 1) j a b ha hb
        (by intro opts hopt; exact hno opts (by rwa [show d + (j + 1) = d + 1 + j by omega]))
      simp only [buildLegs]
      split
      · rfl
      next opts hlsa =>
      split
      · rfl
      next hem =>
      rw [hrec]
      split
      · rfl
      · rfl

/-- Helper: the "no valid routes" outcome occurs exactly when every
permutation's candidate route is invalidated. -/
theorem optimize_no_valid_iff (ls : String → String → ℕ → Option (List Offer)) (d0 : ℕ)
    (cities : List String) (h2 : 2 ≤ cities.length) :
    optimize_multi_city_route ls (some cities) d0 =
      OptimizeOutput.error "Could not find valid routes for any permutation" ↔
    ∀ p ∈ allPermutations cities, buildRoute ls d0 p = none := by
  simp only [optimize_multi_city_route]
  rw [if_neg (by omega)]
  constructor
  · intro h
    split at h
    next hcr =>
      have hnil : completeRoutes ls d0 cities = [] := (enumF_eq_nil_iff _ _).mp hcr
      exact fun p hp => List.filterMap_eq_nil_iff.mp hnil p hp
    next c cs hcr =>
      split at h
      next hbd => exact absurd h (by decide)
      next ds hbd => exact absurd h (by simp)
  · intro hall
    have hnil : completeRoutes ls d0 cities = [] := List.filterMap_eq_nil_iff.mpr hall
    rw [hnil]
    rfl

/-- C9 counterexample: the permutation `["A", "B"]`'s only leg has an offer
whose price is present and equals `0` — priced in the claim's sense — yet
the optimizer reports "no valid routes", because the per-leg filter
`opt.get('price')` uses Python truthiness and rejects a zero price. -/
theorem optimize_zero_price_cex :
    optimize_multi_city_route ls9 (some ["A", "B"]) 0 =
      OptimizeOutput.error "Could not find valid routes for any permutation" ∧
    ls9 "A" "B" 0 = some [⟨some 0, none, none⟩] ∧
    (⟨some 0, none, none⟩ : Offer).price = some 0 ∧
    ["A", "B"] ∈ allPermutations ["A", "B"] := by
  decide

/-- C9 (amended): per leg the chosen offer is the first minimum-price offer
among that leg's *truthy-priced* offers (price present and non-zero;
duration plays no role); a leg with no truthy-priced offer invalidates the
whole permutation silently; and the optimizer returns the "no valid routes"
condition exactly when every permutation is invalidated. -/
theorem optimize_leg_selection (ls : String → String → ℕ → Option (List Offer)) (d0 : ℕ) :
    (∀ perm : List String, ∀ cr : CompleteRoute, buildRoute ls d0 perm = some cr →
      ∀ leg ∈ cr.legs, ∃ opts : List Offer, ls leg.origin leg.dest leg.date = some opts ∧
        leg.option ∈ opts ∧ priceTruthy leg.option = true ∧
        ∀ o ∈ opts, priceTruthy o = true → leg.option.price.getD 0 ≤ o.price.getD 0) ∧
    (∀ perm : List String, ∀ i : ℕ, ∀ a b : String,
      perm.get? i = some a → perm.get? (i + 1) = some b →
      (∀ opts : List Offer, ls a b (d0 + i) = some opts → opts.filter priceTruthy = []) →
      buildRoute ls d0 perm = none) ∧
    (∀ cities : List String, 2 ≤ cities.length →
      (optimize_multi_city_route ls (some cities) d0 =
        OptimizeOutput.error "Could not find valid routes for any permutation" ↔
       ∀ p ∈ allPermutations cities, buildRoute ls d0 p = none)) := by
  refine ⟨?_, ?_, fun cities h2 => optimize_no_valid_iff ls d0 cities h2⟩
  · intro perm cr hcr leg hleg
    simp only [buildRoute] at hcr
    rcases Option.map_eq_some'.mp hcr with ⟨acc, hacc, rfl⟩
    exact buildLegs_legs_spec ls d0 perm acc hacc leg hleg
  · intro perm i a b ha hb hno
    simp only [buildRoute]
    rw [buildLegs_invalid ls perm d0 i a b ha hb hno]
    rfl

/-- C9 witness: on `ls10` the leg `A → B` picks the price-3 offer (the
minimum among truthy-priced offers), and the optimizer does not report
"no valid routes". -/
theorem optimize_leg_selection_witness :
    buildRoute ls10 0 ["A", "B"] = some cr10 ∧
    priceTruthy (⟨some 3, none, some "PT1H"⟩ : Offer) = true ∧
    optimize_multi_city_route ls10 (some ["A", "B"]) 0 ≠
      OptimizeOutput.error "Could not find valid routes for any permutation" := by
  have h := optimize_leg_selection ls10 0
  have hbr : buildRoute ls10 0 ["A", "B"] = some cr10 := by decide
  refine ⟨hbr, ?_, ?_⟩
  · obtain ⟨opts, -, -, ht, -⟩ := h.1 ["A", "B"] cr10 hbr
      ⟨"A", "B", 0, ⟨some 3, none, some "PT1H"⟩⟩ (by decide)
    exact ht
  · intro hcon
    have hiff := (h.2.2 ["A", "B"] (by decide)).mp hcon
    have hnone := hiff ["A", "B"] (by decide)
    rw [hbr] at hnone
    exact absurd hnone (by simp)

/-- Helper: the accumulated duration total of the leg loop equals the sum of
the chosen offers' parsed durations with `"PT0M"` substituted for an absent
duration field. -/
theorem buildLegs_duration (ls : String → String → ℕ → Option (List Offer)) :
    ∀ (d : ℕ) (cs : List String) (acc : List RouteLeg × ℚ × WithTop ℕ),
      buildLegs ls d cs = some acc →
      acc.2.2 = (acc.1.map fun leg =>
        parse_iso_duration_to_minutes (leg.option.duration.getD "PT0M")).sum
  | d, [], acc => by
    intro h
    simp only [buildLegs] at h
    injection h with h
    subst h
    simp
  | d, [c], acc => by
    intro h
    simp only [buildLegs] at h
    injection h with h
    subst h
    simp
  | d, a :: b :: rest, acc => by
    intro h
    simp only [buildLegs] at h
    split at h
    next hlsa => exact absurd h (by simp)
    next opts hlsa =>
    split at h
    next hem => exact absurd h (by simp)
    next hem =>
    split at h
    next hlb => exact absurd h (by simp)
    next best hlb =>
    split at h
    next hbl => exact absurd h (by simp)
    next acc2 hbl =>
    injection h with h
    subst h
    simp only [List.map_cons, List.sum_cons]
    rw [← buildLegs_duration ls (d + 1) (b :: rest) acc2 hbl]

/-- Helper: a `WithTop ℕ` sum with an infinite member is infinite. -/
theorem sum_eq_top_of_mem_top {l : List (WithTop ℕ)} (h : ⊤ ∈ l) : l.sum = ⊤ := by
  induction l with
  | nil => simp at h
  | cons x xs ih =>
    rw [List.sum_cons]
    rcases List.mem_cons.mp h with rfl | h2
    · simp
    · rw [ih h2]
      simp

/-- C10: a valid route's `total_duration_minutes` is the sum over its legs
of the parsed duration of the chosen offer with `"PT0M"` substituted for an
absent duration field; a missing duration contributes exactly `0` (a route
all of whose chosen offers lack durations totals `0` and is at least as
fast as any route), while a present-but-unparseable duration makes the
total the infinity sentinel yet leaves the route in the candidate set. -/
theorem route_duration_totals (ls : String → String → ℕ → Option (List Offer)) (d0 : ℕ)
    (perm : List String) (cr : CompleteRoute)
    (h : buildRoute ls d0 perm = some cr) :
    cr.total_duration_minutes = (cr.legs.map fun leg =>
      parse_iso_duration_to_minutes (leg.option.duration.getD "PT0M")).sum ∧
    (∀ leg : RouteLeg, leg.option.duration = none →
      parse_iso_duration_to_minutes (leg.option.duration.getD "PT0M") = ((0 : ℕ) : WithTop ℕ)) ∧
    ((∀ leg ∈ cr.legs, leg.option.duration = none) →
      cr.total_duration_minutes = ((0 : ℕ) : WithTop ℕ)) ∧
    ((∃ leg ∈ cr.legs, leg.option.duration ≠ none ∧ parseDur leg.option = ⊤) →
      cr.total_duration_minutes = ⊤) ∧
    (∀ cities : List String, perm ∈ allPermutations cities →
      cr ∈ completeRoutes ls d0 cities) ∧
    ((∀ leg ∈ cr.legs, leg.option.duration = none) →
      ∀ cr2 : CompleteRoute, cr.total_duration_minutes ≤ cr2.total_duration_minutes) := by
  simp only [buildRoute] at h
  rcases Option.map_eq_some'.mp h with ⟨acc, hacc, rfl⟩
  have hsum := buildLegs_duration ls d0 perm acc hacc
  have hzero : ∀ leg : RouteLeg, leg.option.duration = none →
      parse_iso_duration_to_minutes (leg.option.duration.getD "PT0M") = ((0 : ℕ) : WithTop ℕ) := by
    intro leg hnone
    rw [hnone]
    decide
  have htotal0 : (∀ leg ∈ acc.1, leg.option.duration = none) →
      (acc.2.2 : WithTop ℕ) = ((0 : ℕ) : WithTop ℕ) := by
    intro hall
    rw [hsum]
    rw [List.sum_eq_zero]
    · rfl
    · intro x hx
      rcases List.mem_map.mp hx with ⟨leg, hleg, rfl⟩
      exact hzero leg (hall leg hleg)
  refine ⟨hsum, hzero, htotal0, ?_, ?_, ?_⟩
  · rintro ⟨leg, hleg, hne, htop⟩
    rw [hsum]
    apply sum_eq_top_of_mem_top
    rcases Option.ne_none_iff_exists'.mp hne with ⟨dstr, hd⟩
    have himg : parse_iso_duration_to_minutes (leg.option.duration.getD "PT0M") = ⊤ := by
      rw [hd]
      simpa [parseDur, hd] using htop
    rw [← himg]
    exact List.mem_map_of_mem _ hleg
  · intro cities hperm
    simp only [completeRoutes]
    refine List.mem_filterMap.mpr ⟨perm, hperm, ?_⟩
    simp only [buildRoute, hacc, Option.map_some']
  · intro hall cr2
    have h0 := htotal0 hall
    simp only at h0 ⊢
    rw [h0]
    exact zero_le cr2.total_duration_minutes

/-- C10 witness: on `lsC10` the chosen offer of leg `A → B` has the
present-but-unparseable duration "XptX"; the route's total duration is the
infinity sentinel and the route is still a candidate. -/
theorem route_duration_totals_witness :
    buildRoute lsC10 0 ["A", "B"] = some crC10 ∧
    crC10.total_duration_minutes = ⊤ ∧
    crC10 ∈ completeRoutes lsC10 0 ["A", "B"] := by
  have hbr : buildRoute lsC10 0 ["A", "B"] = some crC10 := by decide
  obtain ⟨-, -, -, h4, h5, -⟩ := route_duration_totals lsC10 0 ["A", "B"] crC10 hbr
  refine ⟨hbr, ?_, h5 ["A", "B"] (by decide)⟩
  exact h4 ⟨⟨"A", "B", 0, ⟨some 5, none, some "XptX"⟩⟩, by decide, by decide, by decide⟩
